import Mathlib

set_option autoImplicit false

namespace EcsDeploy

/-! Shallow embedding of ecs_deploy (src/ecs_deploy/ecs.py and src/ecs_deploy/cli.py).
Python dicts are modelled as association lists in insertion order: assigning to an
existing key updates the value in place (keeping the key position), assigning a new
key appends it at the end. -/

/-- Python dict assignment `m[k] = v`: update in place if the key exists, append otherwise. -/
def dictInsert {α β : Type} [DecidableEq α] (m : List (α × β)) (k : α) (v : β) :
    List (α × β) :=
  if m.any (fun p => p.1 = k) then
    m.map (fun p => if p.1 = k then (k, v) else p)
  else m ++ [(k, v)]

/-- Python `m.update(n)` / repeated assignment of the pairs of `n` into `m`, in order. -/
def dictUpdate {α β : Type} [DecidableEq α] (m n : List (α × β)) : List (α × β) :=
  n.foldl (fun acc p => dictInsert acc p.1 p.2) m

/-- Python dict comprehension over a list of pairs: build a dict from scratch. -/
def dictOfList {α β : Type} [DecidableEq α] (l : List (α × β)) : List (α × β) :=
  dictUpdate [] l

/-- The keys of a dict, in insertion order. -/
def dictKeys {α β : Type} (m : List (α × β)) : List α :=
  m.map (fun p => p.1)

/-- Values stored in task-definition diff records. In Python the `value` and
`old_value` slots of `EcsTaskDefinitionDiff` hold `None`, a string, a list of
strings or a dict, depending on the field. -/
inductive DVal where
  | pyNone
  | str (s : String)
  | strList (l : List String)
  | dict (m : List (String × String))
deriving DecidableEq, Repr

/-- Projection used where the Python code treats a diff value as a string
(`command.split(' ')` in `get_overrides_command`). -/
def DVal.asStr : DVal → String
  | .str s => s
  | _ => ""

/-- Projection used where the Python code treats a diff value as a dict
(`get_overrides_environment`). -/
def DVal.asDict : DVal → List (String × String)
  | .dict m => m
  | _ => []

/-- One element of `containerDefinitions`: name, image, command and the
`environment` list of name/value pairs, as stored in the task definition payload. -/
structure ContainerDefinition where
  name : String
  image : String
  command : DVal := .pyNone
  environment : List (String × String) := []
deriving DecidableEq, Repr

/-- EcsTaskDefinitionDiff from ecs.py: container name (none for definition-level
fields such as the role arn), field name, new value, old value. -/
structure EcsTaskDefinitionDiff where
  container : Option String
  field : String
  value : DVal
  old_value : DVal
deriving DecidableEq, Repr

/-- EcsTaskDefinition from ecs.py, restricted to the payload keys the modelled
operations read or write, plus the accumulated `diff` list. -/
structure EcsTaskDefinition where
  family : String
  revision : Nat
  taskRoleArn : String
  containerDefinitions : List ContainerDefinition
  volumes : List String := []
  diff : List EcsTaskDefinitionDiff := []
deriving DecidableEq, Repr

/-- The constructor sets the private diff list to the empty list. -/
def EcsTaskDefinition.fromPayload (family : String) (revision : Nat)
    (taskRoleArn : String) (containerDefinitions : List ContainerDefinition)
    (volumes : List String) : EcsTaskDefinition :=
  { family := family, revision := revision, taskRoleArn := taskRoleArn,
    containerDefinitions := containerDefinitions, volumes := volumes, diff := [] }

/-- Domain errors of ecs.py that matter here. -/
inductive EcsError where
  | unknownContainer (message : String)
deriving DecidableEq, Repr

def EcsTaskDefinition.container_names (td : EcsTaskDefinition) : List String :=
  td.containerDefinitions.map (fun c => c.name)

/-- validate_container_options: raise UnknownContainerError at the first option key
that is not a container name. -/
def EcsTaskDefinition.validate_container_options (td : EcsTaskDefinition)
    (container_options : List String) : Option EcsError :=
  match container_options.find? (fun n => !(td.container_names.contains n)) with
  | some n => some (.unknownContainer ("Unknown container: " ++ n))
  | none => none

/-- Python `image.rsplit(':', 1)[0] + ':' + tag.strip()`: keep everything before
the last colon (the whole string when it has no colon) and append the trimmed tag. -/
def image_with_tag (image tag : String) : String :=
  let parts := image.splitOn ":"
  if parts.length = 1 then image ++ ":" ++ tag.trim
  else String.intercalate ":" parts.dropLast ++ ":" ++ tag.trim

/-- Body of the set_images loop for one container: an explicit override replaces the
image wholesale; otherwise a truthy tag replaces only the tag suffix; otherwise the
container is untouched. Returns the new container and the diffs it appends.
A tag equal to the empty string models a falsy Python tag (None or the empty string). -/
def set_images_container (tag : String) (images : List (String × String))
    (container : ContainerDefinition) :
    ContainerDefinition × List EcsTaskDefinitionDiff :=
  match images.find? (fun p => p.1 = container.name) with
  | some p =>
    ({ container with image := p.2 },
     [⟨some container.name, "image", .str p.2, .str container.image⟩])
  | none =>
    if tag ≠ "" then
      let new_image := image_with_tag container.image tag
      ({ container with image := new_image },
       [⟨some container.name, "image", .str new_image, .str container.image⟩])
    else (container, [])

/-- set_images: validate every override key first, then walk the containers in order. -/
def EcsTaskDefinition.set_images (td : EcsTaskDefinition) (tag : String)
    (images : List (String × String)) : Except EcsError EcsTaskDefinition :=
  match td.validate_container_options (dictKeys images) with
  | some e => .error e
  | none =>
    let results := td.containerDefinitions.map (set_images_container tag images)
    .ok { td with containerDefinitions := results.map (fun r => r.1),
                  diff := td.diff ++ (results.map (fun r => r.2)).flatten }

/-- Body of the set_commands loop for one container: wrap the override string in a
single-element list; the diff records the raw string as the new value. -/
def set_commands_container (commands : List (String × String))
    (container : ContainerDefinition) :
    ContainerDefinition × List EcsTaskDefinitionDiff :=
  match commands.find? (fun p => p.1 = container.name) with
  | some p =>
    ({ container with command := .strList [p.2] },
     [⟨some container.name, "command", .str p.2, container.command⟩])
  | none => (container, [])

/-- set_commands: validate every override key first, then walk the containers in order. -/
def EcsTaskDefinition.set_commands (td : EcsTaskDefinition)
    (commands : List (String × String)) : Except EcsError EcsTaskDefinition :=
  match td.validate_container_options (dictKeys commands) with
  | some e => .error e
  | none =>
    let results := td.containerDefinitions.map (set_commands_container commands)
    .ok { td with containerDefinitions := results.map (fun r => r.1),
                  diff := td.diff ++ (results.map (fun r => r.2)).flatten }

/-- The grouping loop at the top of set_environment: `environment.setdefault(c, {})`
followed by `environment[c][var] = value`, over the triples in order. -/
def group_environment (environment_list : List (String × String × String)) :
    List (String × List (String × String)) :=
  environment_list.foldl (fun environment env =>
    if environment.any (fun p => p.1 = env.1) then
      environment.map (fun p =>
        if p.1 = env.1 then (p.1, dictInsert p.2 env.2.1 env.2.2) else p)
    else environment ++ [(env.1, dictInsert [] env.2.1 env.2.2)]) []

/-- apply_container_environment: rebuild the old environment as a dict, overlay the
new variables, record one diff, and store the merged dict back as the pair list. -/
def apply_container_environment (container : ContainerDefinition)
    (new_environment : List (String × String)) :
    ContainerDefinition × EcsTaskDefinitionDiff :=
  let old_environment := dictOfList container.environment
  let merged_environment := dictUpdate old_environment new_environment
  ({ container with environment := merged_environment },
   ⟨some container.name, "environment", .dict merged_environment, .dict old_environment⟩)

/-- Body of the set_environment loop for one container: merge when the grouped
dict names the container, leave it untouched otherwise. -/
def env_apply_fun (environment : List (String × List (String × String)))
    (container : ContainerDefinition) :
    ContainerDefinition × List EcsTaskDefinitionDiff :=
  match environment.find? (fun p => p.1 = container.name) with
  | some p =>
    let r := apply_container_environment container p.2
    (r.1, [r.2])
  | none => (container, [])

/-- set_environment: group the triples by container, validate the grouped keys,
then walk the containers in order applying the per-container merge. -/
def EcsTaskDefinition.set_environment (td : EcsTaskDefinition)
    (environment_list : List (String × String × String)) :
    Except EcsError EcsTaskDefinition :=
  let environment := group_environment environment_list
  match td.validate_container_options (dictKeys environment) with
  | some e => .error e
  | none =>
    let results := td.containerDefinitions.map (env_apply_fun environment)
    .ok { td with containerDefinitions := results.map (fun r => r.1),
                  diff := td.diff ++ (results.map (fun r => r.2)).flatten }

/-- set_role_arn: no-op on a falsy value, otherwise replace the role arn and record
one definition-level diff. -/
def EcsTaskDefinition.set_role_arn (td : EcsTaskDefinition) (role_arn : String) :
    EcsTaskDefinition :=
  if role_arn ≠ "" then
    { td with taskRoleArn := role_arn,
              diff := td.diff ++ [⟨none, "role_arn", .str role_arn, .str td.taskRoleArn⟩] }
  else td

/-- The Python object is mutated in place; a call that raises leaves it as it was.
This helper gives the state of the definition after a call, successful or not. -/
def after_call (td : EcsTaskDefinition) (r : Except EcsError EcsTaskDefinition) :
    EcsTaskDefinition :=
  match r with
  | .ok td2 => td2
  | .error _ => td

/-- One entry of the containerOverrides payload built by get_overrides. -/
structure ContainerOverride where
  name : Option String
  command : Option (List String) := none
  environment : Option (List (String × String)) := none
deriving DecidableEq, Repr

/-- Python `command.split(' ')` on character lists: cut at every single space
character, keeping empty parts. -/
def splitChars (sep : Char) : List Char → List (List Char)
  | [] => [[]]
  | c :: rest =>
    match splitChars sep rest with
    | [] => [[c]]
    | g :: gs => if c = sep then [] :: g :: gs else (c :: g) :: gs

/-- get_overrides_command: split the command string on single spaces. -/
def get_overrides_command (command : String) : List String :=
  (splitChars ' ' command.data).map (fun g => String.mk g)

/-- get_overrides_environment: render the merged dict as a list of name/value
pairs in insertion order, which is the dict itself in this model. -/
def get_overrides_environment (environment_dict : List (String × String)) :
    List (String × String) :=
  environment_dict

/-- The two field assignments inside the get_overrides loop. -/
def override_apply (override : ContainerOverride) (diff : EcsTaskDefinitionDiff) :
    ContainerOverride :=
  if diff.field = "command" then
    { override with command := some (get_overrides_command diff.value.asStr) }
  else if diff.field = "environment" then
    { override with environment := some (get_overrides_environment diff.value.asDict) }
  else override

/-- The get_overrides loop. The current override dict is appended to the output
list as soon as it is created and keeps being mutated afterwards; `appended`
records whether the pending record is the initial empty dict (never appended)
or a created one (already in the output). -/
def get_overrides_go (acc : List ContainerOverride) (override : ContainerOverride)
    (appended : Bool) : List EcsTaskDefinitionDiff → List ContainerOverride
  | [] => acc ++ (if appended then [override] else [])
  | diff :: rest =>
    if override.name ≠ diff.container then
      get_overrides_go (acc ++ (if appended then [override] else []))
        (override_apply ⟨diff.container, none, none⟩ diff) true rest
    else
      get_overrides_go acc (override_apply override diff) appended rest

/-- get_overrides: walk the diff list, starting a new override record whenever the
container name changes. -/
def EcsTaskDefinition.get_overrides (td : EcsTaskDefinition) : List ContainerOverride :=
  get_overrides_go [] ⟨none, none, none⟩ false td.diff

/-- One element of the deployments list of a service payload. Timestamps are
modelled as integers (datetimes are totally ordered). -/
structure EcsDeployment where
  status : String
  createdAt : Int
  updatedAt : Int
deriving DecidableEq, Repr

/-- One element of the events list of a service payload. -/
structure EcsServiceEvent where
  createdAt : Int
  message : String
deriving DecidableEq, Repr

/-- EcsService from ecs.py, restricted to the payload keys the modelled code reads. -/
structure EcsService where
  cluster : String
  serviceName : String
  taskDefinition : String
  desiredCount : Int
  deployments : List EcsDeployment
  events : List EcsServiceEvent
deriving DecidableEq, Repr

/-- deployment_created_at: createdAt of the first PRIMARY deployment, falling back
to the current instant. -/
def EcsService.deployment_created_at (s : EcsService) (now : Int) : Int :=
  match s.deployments.find? (fun d => d.status = "PRIMARY") with
  | some d => d.createdAt
  | none => now

/-- deployment_updated_at: updatedAt of the first PRIMARY deployment, falling back
to the current instant. -/
def EcsService.deployment_updated_at (s : EcsService) (now : Int) : Int :=
  match s.deployments.find? (fun d => d.status = "PRIMARY") with
  | some d => d.updatedAt
  | none => now

/-- Leading-match test on character lists: the pattern is an initial segment. -/
def charsStart : List Char → List Char → Bool
  | [], _ => true
  | _ :: _, [] => false
  | p :: ps, c :: cs => p = c && charsStart ps cs

/-- Python substring test `pat in s` on character lists: the pattern matches as
an initial segment at some position. -/
def charsContain (pat : List Char) : List Char → Bool
  | [] => charsStart pat []
  | c :: rest => charsStart pat (c :: rest) || charsContain pat rest

/-- Python `'unable' in message`. -/
def message_has_unable (message : String) : Bool :=
  charsContain "unable".data message.data

/-- get_warnings: collect into a dict, keyed by timestamp, every event whose message
contains the failure marker and whose timestamp lies strictly between the bounds. -/
def EcsService.get_warnings (s : EcsService) (since untilT : Int) :
    List (Int × String) :=
  s.events.foldl (fun errors event =>
    if message_has_unable event.message ∧ since < event.createdAt ∧ event.createdAt < untilT
    then dictInsert errors event.createdAt event.message
    else errors) []

/-- The errors property: get_warnings from deployment_updated_at to now. -/
def EcsService.errors (s : EcsService) (now : Int) : List (Int × String) :=
  s.get_warnings (s.deployment_updated_at now) now

/-- The older_errors property: get_warnings from deployment_created_at to
deployment_updated_at. -/
def EcsService.older_errors (s : EcsService) (now : Int) : List (Int × String) :=
  s.get_warnings (s.deployment_created_at now) (s.deployment_updated_at now)

/-- One element of the describe_tasks response, restricted to the keys read. -/
structure EcsTaskDetail where
  taskDefinitionArn : String
  lastStatus : String
deriving DecidableEq, Repr

/-- get_running_tasks_count: count tasks whose definition arn matches the service
and whose last status is RUNNING. -/
def get_running_tasks_count (service : EcsService) (tasks_details : List EcsTaskDetail) :
    Nat :=
  tasks_details.foldl (fun running_count task =>
    if task.taskDefinitionArn = service.taskDefinition ∧ task.lastStatus = "RUNNING"
    then running_count + 1 else running_count) 0

/-- is_deployed, parameterised over the remote list_tasks and describe_tasks calls:
more than one (or zero) deployments is never deployed; an empty task list is
deployed exactly when the desired count is zero; otherwise the matching running
count must equal the desired count. -/
def is_deployed (list_tasks : Unit → List String)
    (describe_tasks : List String → List EcsTaskDetail) (service : EcsService) : Bool :=
  if service.deployments.length ≠ 1 then false
  else
    let running_tasks := list_tasks ()
    if running_tasks = [] then service.desiredCount = 0
    else service.desiredCount = (get_running_tasks_count service (describe_tasks running_tasks) : Int)

/-- The run_task response, restricted to the list of started task identifiers. -/
structure RunTaskResult where
  tasks : List String
deriving DecidableEq, Repr

/-- The state RunAction.run leaves behind: the recorded started_tasks list. -/
structure RunActionState where
  started_tasks : List String
deriving DecidableEq, Repr

/-- RunAction.run: the request parameters go to the external run_task call, whose
response is the argument here; the method records the returned tasks and returns
the boolean literal True. -/
def RunAction_run (run_task_response : RunTaskResult) : RunActionState × Bool :=
  ({ started_tasks := run_task_response.tasks }, true)

/-- Outcome of wait_for_finish in cli.py: exit 0, exit 1 after print_errors (with
the was_timeout flag and the two error dicts that get printed), or the crash that
happens when the loop body never ran and `service` is referenced unbound. -/
inductive PollOutcome where
  | success
  | failure (was_timeout : Bool) (errors older_errors : List (Int × String))
  | unboundLocal
deriving DecidableEq, Repr

/-- The while loop of wait_for_finish. Time is discretised: each iteration costs the
one-second sleep, so iteration i runs the remote calls at instant i + 1, and the
deadline check `now < waiting_timeout` becomes having fuel left out of the initial
`timeout` units. `last` carries the service variable (none while still unassigned)
together with the instant it was fetched at. -/
def poll_loop (fetch : Nat → EcsService) (is_dep : EcsService → Bool) :
    Nat → Nat → Bool → Option (EcsService × Int) → Bool × Option (EcsService × Int)
  | 0, _, waiting, last => (waiting, last)
  | fuel + 1, i, waiting, last =>
    if waiting then
      let service := fetch i
      let now : Int := (i : Int) + 1
      poll_loop fetch is_dep fuel (i + 1)
        (!(is_dep service) && (service.errors now).isEmpty) (some (service, now))
    else (waiting, last)

/-- wait_for_finish: run the loop, then report. A true `waiting` short-circuits the
`waiting or service.errors` test, after which print_errors is called on `service`,
which is unbound when the loop body never ran. -/
def wait_for_finish (fetch : Nat → EcsService) (is_dep : EcsService → Bool)
    (timeout : Int) : PollOutcome :=
  match poll_loop fetch is_dep timeout.toNat 0 true none with
  | (true, none) => .unboundLocal
  | (true, some (service, now)) =>
    .failure true (service.errors now) (service.older_errors now)
  | (false, none) => .unboundLocal
  | (false, some (service, now)) =>
    if !(service.errors now).isEmpty then
      .failure false (service.errors now) (service.older_errors now)
    else .success

/-- Spec-side description of the override payload for an image-only diff list:
one record per maximal run of consecutive equal container names, holding only
the container name. Stated from the spec wording for comparison with
`EcsTaskDefinition.get_overrides`. -/
def spec_image_only_overrides : Option String → List EcsTaskDefinitionDiff →
    List ContainerOverride
  | _, [] => []
  | cur, d :: rest =>
    if cur = d.container then spec_image_only_overrides cur rest
    else ⟨d.container, none, none⟩ :: spec_image_only_overrides d.container rest

/-- A two-container task definition used as concrete input for witnesses. -/
def tdW : EcsTaskDefinition :=
  EcsTaskDefinition.fromPayload "web" 7 "arn:role"
    [{ name := "app", image := "repo/app:v1", command := .pyNone,
       environment := [("A", "1"), ("B", "2")] },
     { name := "worker", image := "repo/worker:v1" }] ["vol0"]

/-- A task definition whose diff list is exactly the pair of diffs named by C4. -/
def tdC4 : EcsTaskDefinition :=
  { family := "fam", revision := 1, taskRoleArn := "", volumes := [],
    containerDefinitions := [{ name := "c1", image := "repo/c1:v1" }],
    diff := [⟨some "c1", "command", .str "run.sh", .pyNone⟩,
             ⟨some "c1", "environment", .dict [("X", "1")], .dict []⟩] }

/-- Base definition for the C10 inputs. -/
def tdC10base : EcsTaskDefinition :=
  EcsTaskDefinition.fromPayload "fam" 1 ""
    [{ name := "c1", image := "repo/c1:v1" }, { name := "c2", image := "repo/c2:v1" }] []

/-- State after a first set_images call overriding only c1. -/
def tdC10a : EcsTaskDefinition :=
  after_call tdC10base (tdC10base.set_images "" [("c1", "repo/c1:v2")])

/-- State after a second set_images call overriding only c2. -/
def tdC10b : EcsTaskDefinition :=
  after_call tdC10a (tdC10a.set_images "" [("c2", "repo/c2:v2")])

/-- State after a third set_images call overriding c1 again. -/
def tdC10c : EcsTaskDefinition :=
  after_call tdC10b (tdC10b.set_images "" [("c1", "repo/c1:v3")])

/-- A service whose single failure-marker event sits before the PRIMARY
deployment creation timestamp. -/
def svcC2 : EcsService :=
  { cluster := "c", serviceName := "s", taskDefinition := "arn:td", desiredCount := 1,
    deployments := [⟨"PRIMARY", 5, 10⟩],
    events := [⟨1, "service was unable to place a task"⟩] }

/-- A service with two deployments, used for the C6 witness. -/
def svcC6 : EcsService :=
  { cluster := "c", serviceName := "s", taskDefinition := "arn:td", desiredCount := 2,
    deployments := [⟨"PRIMARY", 5, 10⟩, ⟨"ACTIVE", 1, 2⟩],
    events := [] }

/-- A service with no errors, used as the quiet snapshot in the poller witnesses. -/
def svcQuiet : EcsService :=
  { cluster := "c", serviceName := "s", taskDefinition := "arn:td", desiredCount := 1,
    deployments := [⟨"PRIMARY", 0, 0⟩], events := [] }

/-- A service showing a failure-marker event inside the active window of every
poll instant, used as the erroring snapshot in the C3 witness. -/
def svcErr : EcsService :=
  { cluster := "c", serviceName := "s", taskDefinition := "arn:td", desiredCount := 1,
    deployments := [⟨"PRIMARY", -10, -10⟩],
    events := [⟨0, "service was unable to place a task"⟩] }

/-- Fetch sequence for the C3 witness: one quiet snapshot, then an erroring one. -/
def fetchC3 : Nat → EcsService
  | 0 => svcQuiet
  | _ + 1 => svcErr

/-! Lemmas about the dict model. -/

theorem list_map_self {α : Type} (f : α → α) :
    ∀ l : List α, (∀ x ∈ l, f x = x) → l.map f = l
  | [], _ => rfl
  | x :: t, h => by
    rw [List.map_cons, h x (List.mem_cons_self x t),
      list_map_self f t (fun y hy => h y (List.mem_cons_of_mem x hy))]

theorem list_map_eq_map {α β : Type} (f g : α → β) :
    ∀ l : List α, (∀ x ∈ l, f x = g x) → l.map f = l.map g
  | [], _ => rfl
  | x :: t, h => by
    rw [List.map_cons, List.map_cons, h x (List.mem_cons_self x t),
      list_map_eq_map f g t (fun y hy => h y (List.mem_cons_of_mem x hy))]

theorem any_key_eq_true_iff {α β : Type} [DecidableEq α] (m : List (α × β)) (k : α) :
    (m.any (fun p => p.1 = k)) = true ↔ k ∈ dictKeys m := by
  simp [dictKeys, List.any_eq_true, List.mem_map]

theorem dictKeys_dictInsert_mem {α β : Type} [DecidableEq α] {m : List (α × β)} {k : α}
    (v : β) (h : k ∈ dictKeys m) : dictKeys (dictInsert m k v) = dictKeys m := by
  unfold dictInsert
  rw [if_pos ((any_key_eq_true_iff m k).mpr h)]
  unfold dictKeys
  rw [List.map_map]
  apply list_map_eq_map
  intro p _
  by_cases hp : p.1 = k
  · simp [hp]
  · simp [hp]

theorem dictKeys_dictInsert_not_mem {α β : Type} [DecidableEq α] {m : List (α × β)}
    {k : α} (v : β) (h : ¬k ∈ dictKeys m) :
    dictKeys (dictInsert m k v) = dictKeys m ++ [k] := by
  unfold dictInsert
  rw [if_neg (fun hc => h ((any_key_eq_true_iff m k).mp hc))]
  simp [dictKeys]

theorem mem_dictKeys_dictInsert {α β : Type} [DecidableEq α] (m : List (α × β))
    (k a : α) (v : β) :
    a ∈ dictKeys (dictInsert m k v) ↔ a ∈ dictKeys m ∨ a = k := by
  by_cases h : k ∈ dictKeys m
  · rw [dictKeys_dictInsert_mem v h]
    constructor
    · exact Or.inl
    · rintro (ha | rfl)
      · exact ha
      · exact h
  · rw [dictKeys_dictInsert_not_mem v h]
    simp

theorem nodup_dictKeys_dictInsert {α β : Type} [DecidableEq α] {m : List (α × β)}
    {k : α} (v : β) (h : (dictKeys m).Nodup) : (dictKeys (dictInsert m k v)).Nodup := by
  by_cases hk : k ∈ dictKeys m
  · rw [dictKeys_dictInsert_mem v hk]
    exact h
  · rw [dictKeys_dictInsert_not_mem v hk]
    simp [List.nodup_append, h, hk]

theorem dictUpdate_cons {α β : Type} [DecidableEq α] (m : List (α × β)) (p : α × β)
    (n : List (α × β)) : dictUpdate m (p :: n) = dictUpdate (dictInsert m p.1 p.2) n :=
  rfl

theorem mem_dictKeys_dictUpdate {α β : Type} [DecidableEq α] (m n : List (α × β))
    (a : α) : a ∈ dictKeys (dictUpdate m n) ↔ a ∈ dictKeys m ∨ a ∈ dictKeys n := by
  induction n generalizing m with
  | nil => simp [dictUpdate, dictKeys]
  | cons p t ih =>
    rw [dictUpdate_cons, ih, mem_dictKeys_dictInsert]
    simp [dictKeys]
    tauto

theorem nodup_dictKeys_dictUpdate {α β : Type} [DecidableEq α] {m : List (α × β)}
    (n : List (α × β)) (h : (dictKeys m).Nodup) : (dictKeys (dictUpdate m n)).Nodup := by
  induction n generalizing m with
  | nil => exact h
  | cons p t ih =>
    rw [dictUpdate_cons]
    exact ih (nodup_dictKeys_dictInsert p.2 h)

theorem nodup_dictKeys_dictOfList {α β : Type} [DecidableEq α] (l : List (α × β)) :
    (dictKeys (dictOfList l)).Nodup :=
  nodup_dictKeys_dictUpdate l (by simp [dictKeys])

theorem allKeyVal_dictInsert {α β : Type} [DecidableEq α] (m : List (α × β)) (k : α)
    (v : β) : (∀ p ∈ dictInsert m k v, p.1 = k → p.2 = v) ∧ k ∈ dictKeys (dictInsert m k v) := by
  constructor
  · intro p hp hpk
    unfold dictInsert at hp
    by_cases h : (m.any (fun q => q.1 = k)) = true
    · rw [if_pos h] at hp
      rcases List.mem_map.mp hp with ⟨q, _, hq⟩
      by_cases hqk : q.1 = k
      · rw [if_pos hqk] at hq
        rw [← hq]
      · rw [if_neg hqk] at hq
        rw [← hq] at hpk
        exact absurd hpk hqk
    · rw [if_neg h] at hp
      rcases List.mem_append.mp hp with hm | hs
      · exact absurd hpk (by
          intro hc
          exact h (List.any_eq_true.mpr ⟨p, hm, by simp [hc]⟩))
      · rw [List.mem_singleton.mp hs]
  · rw [mem_dictKeys_dictInsert]
    exact Or.inr rfl

theorem allKeyVal_dictInsert_ne {α β : Type} [DecidableEq α] {m : List (α × β)}
    {k k' : α} {v : β} (v' : β) (hne : k' ≠ k)
    (hm : ∀ p ∈ m, p.1 = k → p.2 = v) :
    ∀ p ∈ dictInsert m k' v', p.1 = k → p.2 = v := by
  intro p hp hpk
  unfold dictInsert at hp
  by_cases h : (m.any (fun q => q.1 = k')) = true
  · rw [if_pos h] at hp
    rcases List.mem_map.mp hp with ⟨q, hq, hqe⟩
    by_cases hqk : q.1 = k'
    · rw [if_pos hqk] at hqe
      rw [← hqe] at hpk
      exact absurd hpk hne
    · rw [if_neg hqk] at hqe
      exact hm p (hqe ▸ hq) hpk
  · rw [if_neg h] at hp
    rcases List.mem_append.mp hp with hq | hs
    · exact hm p hq hpk
    · rw [List.mem_singleton.mp hs] at hpk
      exact absurd hpk hne

theorem allKeyVal_dictUpdate {α β : Type} [DecidableEq α] {m : List (α × β)} {k : α}
    {v : β} (n : List (α × β)) (hk : ¬k ∈ dictKeys n)
    (hm : ∀ p ∈ m, p.1 = k → p.2 = v) :
    ∀ p ∈ dictUpdate m n, p.1 = k → p.2 = v := by
  induction n generalizing m with
  | nil => exact hm
  | cons q t ih =>
    rw [dictUpdate_cons]
    have hk2 : ¬k ∈ q.1 :: dictKeys t := hk
    have hq : q.1 ≠ k := by
      intro hc
      exact hk2 (by rw [← hc]; exact List.mem_cons_self q.1 (dictKeys t))
    have ht : ¬k ∈ dictKeys t := fun hc => hk2 (List.mem_cons_of_mem q.1 hc)
    exact ih ht (allKeyVal_dictInsert_ne q.2 hq hm)

theorem dictInsert_eq_self {α β : Type} [DecidableEq α] {m : List (α × β)} {k : α}
    {v : β} (hk : k ∈ dictKeys m) (hv : ∀ p ∈ m, p.1 = k → p.2 = v) :
    dictInsert m k v = m := by
  unfold dictInsert
  rw [if_pos ((any_key_eq_true_iff m k).mpr hk)]
  apply list_map_self
  intro p hp
  by_cases h : p.1 = k
  · rw [if_pos h]
    rcases p with ⟨a, b⟩
    have ha : a = k := h
    have hb : b = v := hv (a, b) hp h
    rw [ha, hb]
  · rw [if_neg h]

theorem dictUpdate_idem {α β : Type} [DecidableEq α] (n : List (α × β))
    (hn : (dictKeys n).Nodup) :
    ∀ m : List (α × β), dictUpdate (dictUpdate m n) n = dictUpdate m n := by
  induction n with
  | nil => intro m; rfl
  | cons q t ih =>
    intro m
    have hn2 : (q.1 :: dictKeys t).Nodup := hn
    have hq : ¬q.1 ∈ dictKeys t := (List.nodup_cons.mp hn2).1
    have ht : (dictKeys t).Nodup := (List.nodup_cons.mp hn2).2
    rw [dictUpdate_cons, dictUpdate_cons]
    have hins : dictInsert (dictUpdate (dictInsert m q.1 q.2) t) q.1 q.2 =
        dictUpdate (dictInsert m q.1 q.2) t := by
      apply dictInsert_eq_self
      · rw [mem_dictKeys_dictUpdate]
        exact Or.inl (allKeyVal_dictInsert m q.1 q.2).2
      · exact allKeyVal_dictUpdate t hq (allKeyVal_dictInsert m q.1 q.2).1
    rw [hins]
    exact ih ht (dictInsert m q.1 q.2)

theorem dictInsert_append_of_not_mem {α β : Type} [DecidableEq α]
    (m₁ m₂ : List (α × β)) (k : α) (v : β) (h : ¬k ∈ dictKeys m₁) :
    dictInsert (m₁ ++ m₂) k v = m₁ ++ dictInsert m₂ k v := by
  have h1 : (m₁.any (fun p => p.1 = k)) = false := by
    rw [← Bool.not_eq_true]
    intro hc
    exact h ((any_key_eq_true_iff m₁ k).mp hc)
  unfold dictInsert
  rw [List.any_append, h1, Bool.false_or]
  by_cases h2 : (m₂.any (fun p => p.1 = k)) = true
  · rw [if_pos h2, if_pos h2, List.map_append]
    have : m₁.map (fun p => if p.1 = k then (k, v) else p) = m₁ := by
      apply list_map_self
      intro p hp
      rw [if_neg (fun hc => h (List.mem_map.mpr ⟨p, hp, hc⟩))]
    rw [this]
  · rw [if_neg h2, if_neg h2, List.append_assoc]

theorem dictUpdate_append_left {α β : Type} [DecidableEq α] (m₁ : List (α × β))
    (n : List (α × β)) (h : ∀ a ∈ dictKeys n, ¬a ∈ dictKeys m₁) :
    ∀ m₂ : List (α × β), dictUpdate (m₁ ++ m₂) n = m₁ ++ dictUpdate m₂ n := by
  induction n with
  | nil => intro m₂; rfl
  | cons q t ih =>
    intro m₂
    have hmem : q.1 ∈ dictKeys (q :: t) := List.mem_cons_self q.1 (dictKeys t)
    rw [dictUpdate_cons, dictUpdate_cons,
      dictInsert_append_of_not_mem m₁ m₂ q.1 q.2 (h q.1 hmem)]
    exact ih (fun a ha => h a (List.mem_cons_of_mem q.1 ha)) (dictInsert m₂ q.1 q.2)

theorem dictOfList_self {α β : Type} [DecidableEq α] :
    ∀ l : List (α × β), (dictKeys l).Nodup → dictOfList l = l := by
  intro l
  induction l with
  | nil => intro _; rfl
  | cons q t ih =>
    intro h
    have h2 : (q.1 :: dictKeys t).Nodup := h
    have hq : ¬q.1 ∈ dictKeys t := (List.nodup_cons.mp h2).1
    have ht : (dictKeys t).Nodup := (List.nodup_cons.mp h2).2
    show dictUpdate [] (q :: t) = q :: t
    rw [dictUpdate_cons]
    have hins : dictInsert ([] : List (α × β)) q.1 q.2 = [q] := by
      unfold dictInsert
      simp
    have hdisj : ∀ a ∈ dictKeys t, ¬a ∈ dictKeys ([q] : List (α × β)) := by
      intro a ha hc
      have hc2 : a ∈ [q.1] := hc
      rw [List.mem_singleton.mp hc2] at ha
      exact hq ha
    have hsplit := dictUpdate_append_left [q] t hdisj []
    rw [List.append_nil] at hsplit
    rw [hins, hsplit, show dictUpdate ([] : List (α × β)) t = dictOfList t from rfl, ih ht]
    rfl

/-! Lemmas about the grouping loop of set_environment. -/

theorem group_environment_keys_aux (a : String) :
    ∀ (l : List (String × String × String)) (acc : List (String × List (String × String))),
      (a ∈ dictKeys (l.foldl (fun environment env =>
        if environment.any (fun p => p.1 = env.1) then
          environment.map (fun p =>
            if p.1 = env.1 then (p.1, dictInsert p.2 env.2.1 env.2.2) else p)
        else environment ++ [(env.1, dictInsert [] env.2.1 env.2.2)]) acc) ↔
      a ∈ dictKeys acc ∨ a ∈ l.map (fun t => t.1))
  | [], acc => by simp
  | e :: t, acc => by
    rw [List.foldl_cons, group_environment_keys_aux a t]
    have hstep : a ∈ dictKeys (if acc.any (fun p => p.1 = e.1) then
        acc.map (fun p => if p.1 = e.1 then (p.1, dictInsert p.2 e.2.1 e.2.2) else p)
        else acc ++ [(e.1, dictInsert [] e.2.1 e.2.2)]) ↔
        a ∈ dictKeys acc ∨ a = e.1 := by
      by_cases h : (acc.any (fun p => p.1 = e.1)) = true
      · rw [if_pos h]
        have hkeys : dictKeys (acc.map (fun p =>
            if p.1 = e.1 then (p.1, dictInsert p.2 e.2.1 e.2.2) else p)) = dictKeys acc := by
          unfold dictKeys
          rw [List.map_map]
          apply list_map_eq_map
          intro p _
          by_cases hp : p.1 = e.1
          · simp [hp]
          · simp [hp]
        rw [hkeys]
        have he1 : e.1 ∈ dictKeys acc := (any_key_eq_true_iff acc e.1).mp h
        constructor
        · exact Or.inl
        · rintro (ha | rfl)
          · exact ha
          · exact he1
      · rw [if_neg h]
        unfold dictKeys
        rw [List.map_append]
        simp
    rw [hstep]
    simp only [List.map_cons, List.mem_cons]
    tauto

theorem mem_dictKeys_group_environment (l : List (String × String × String)) (a : String) :
    a ∈ dictKeys (group_environment l) ↔ a ∈ l.map (fun t => t.1) := by
  unfold group_environment
  rw [group_environment_keys_aux a l []]
  simp [dictKeys]

theorem group_environment_nodup_aux :
    ∀ (l : List (String × String × String)) (acc : List (String × List (String × String))),
      (∀ p ∈ acc, (dictKeys p.2).Nodup) →
      ∀ p ∈ l.foldl (fun environment env =>
        if environment.any (fun p => p.1 = env.1) then
          environment.map (fun p =>
            if p.1 = env.1 then (p.1, dictInsert p.2 env.2.1 env.2.2) else p)
        else environment ++ [(env.1, dictInsert [] env.2.1 env.2.2)]) acc,
      (dictKeys p.2).Nodup
  | [], _, hacc => hacc
  | e :: t, acc, hacc => by
    rw [List.foldl_cons]
    apply group_environment_nodup_aux t
    intro p hp
    by_cases h : (acc.any (fun q => q.1 = e.1)) = true
    · rw [if_pos h] at hp
      rcases List.mem_map.mp hp with ⟨q, hq, hqe⟩
      by_cases hqk : q.1 = e.1
      · rw [if_pos hqk] at hqe
        rw [← hqe]
        exact nodup_dictKeys_dictInsert e.2.2 (hacc q hq)
      · rw [if_neg hqk] at hqe
        rw [← hqe]
        exact hacc q hq
    · rw [if_neg h] at hp
      rcases List.mem_append.mp hp with hq | hs
      · exact hacc p hq
      · rw [List.mem_singleton.mp hs]
        show (dictKeys (dictInsert ([] : List (String × String)) e.2.1 e.2.2)).Nodup
        exact nodup_dictKeys_dictInsert e.2.2 (by simp [dictKeys])

theorem group_environment_value_nodup (l : List (String × String × String)) :
    ∀ p ∈ group_environment l, (dictKeys p.2).Nodup := by
  unfold group_environment
  exact group_environment_nodup_aux l []
    (fun p hp => absurd hp (List.not_mem_nil p))

/-! Lemmas about get_warnings. -/

theorem warnings_keys_aux (since untilT ts : Int) :
    ∀ (events : List EcsServiceEvent) (acc : List (Int × String)),
      (ts ∈ dictKeys (events.foldl (fun errors event =>
        if message_has_unable event.message ∧ since < event.createdAt ∧ event.createdAt < untilT
        then dictInsert errors event.createdAt event.message
        else errors) acc) ↔
      ts ∈ dictKeys acc ∨ ∃ e ∈ events, e.createdAt = ts ∧ message_has_unable e.message ∧
        since < e.createdAt ∧ e.createdAt < untilT)
  | [], acc => by simp
  | ev :: t, acc => by
    rw [List.foldl_cons, warnings_keys_aux since untilT ts t]
    have hstep : ts ∈ dictKeys (if message_has_unable ev.message ∧ since < ev.createdAt ∧
        ev.createdAt < untilT then dictInsert acc ev.createdAt ev.message else acc) ↔
        ts ∈ dictKeys acc ∨ (ev.createdAt = ts ∧ message_has_unable ev.message ∧
          since < ev.createdAt ∧ ev.createdAt < untilT) := by
      by_cases h : message_has_unable ev.message ∧ since < ev.createdAt ∧ ev.createdAt < untilT
      · rw [if_pos h, mem_dictKeys_dictInsert]
        constructor
        · rintro (ha | rfl)
          · exact Or.inl ha
          · exact Or.inr ⟨rfl, h.1, h.2.1, h.2.2⟩
        · rintro (ha | ⟨he, _⟩)
          · exact Or.inl ha
          · exact Or.inr he.symm
      · rw [if_neg h]
        constructor
        · exact Or.inl
        · rintro (ha | ⟨_, hm, h1, h2⟩)
          · exact ha
          · exact absurd ⟨hm, h1, h2⟩ h
    rw [hstep]
    simp only [List.mem_cons]
    constructor
    · rintro (ha | hq)
      · rcases ha with ha | hq
        · exact Or.inl ha
        · exact Or.inr ⟨ev, Or.inl rfl, hq⟩
      · rcases hq with ⟨e, he, hQ⟩
        exact Or.inr ⟨e, Or.inr he, hQ⟩
    · rintro (ha | ⟨e, he | he, hQ⟩)
      · exact Or.inl (Or.inl ha)
      · rw [he] at hQ
        exact Or.inl (Or.inr hQ)
      · exact Or.inr ⟨e, he, hQ⟩

theorem mem_dictKeys_get_warnings (s : EcsService) (since untilT ts : Int) :
    ts ∈ dictKeys (s.get_warnings since untilT) ↔
      ∃ e ∈ s.events, e.createdAt = ts ∧ message_has_unable e.message ∧
        since < e.createdAt ∧ e.createdAt < untilT := by
  unfold EcsService.get_warnings
  rw [warnings_keys_aux since untilT ts s.events []]
  simp [dictKeys]

/-! Lemmas about the polling loop. -/

theorem poll_loop_not_waiting (fetch : Nat → EcsService) (is_dep : EcsService → Bool)
    (fuel i : Nat) (last : Option (EcsService × Int)) :
    poll_loop fetch is_dep fuel i false last = (false, last) := by
  cases fuel with
  | zero => rfl
  | succ n => simp [poll_loop]

theorem poll_loop_advance (fetch : Nat → EcsService) (is_dep : EcsService → Bool)
    (n : Nat) :
    ∀ (m i : Nat) (last : Option (EcsService × Int)),
      (∀ j, j < n → is_dep (fetch (i + j)) = false ∧
        (fetch (i + j)).errors (((i + j : Nat) : Int) + 1) = []) →
      poll_loop fetch is_dep (n + m) i true last =
        poll_loop fetch is_dep m (i + n) true
          (if n = 0 then last
           else some (fetch (i + n - 1), ((i + n : Nat) : Int))) := by
  induction n with
  | zero =>
    intro m i last _
    simp
  | succ k ih =>
    intro m i last h
    have hstep := h 0 (Nat.succ_pos k)
    have h1 : is_dep (fetch i) = false := by simpa using hstep.1
    have h2 : (fetch i).errors ((i : Int) + 1) = [] := by simpa using hstep.2
    have hfuel : k + 1 + m = (k + m) + 1 := by omega
    have e1 : i + (k + 1) = i + 1 + k := by omega
    rw [hfuel, e1]
    show poll_loop fetch is_dep ((k + m) + 1) i true last = _
    rw [poll_loop]
    simp only [if_true]
    rw [h1, h2]
    simp only [Bool.not_false, List.isEmpty_nil, Bool.true_and]
    have h' : ∀ j, j < k → is_dep (fetch (i + 1 + j)) = false ∧
        (fetch (i + 1 + j)).errors (((i + 1 + j : Nat) : Int) + 1) = [] := by
      intro j hj
      have e2 : i + 1 + j = i + (j + 1) := by omega
      rw [e2]
      exact h (j + 1) (by omega)
    rw [ih m (i + 1) (some (fetch i, (i : Int) + 1)) h']
    by_cases hk : k = 0
    · subst hk
      simp only [if_pos rfl, if_neg (Nat.succ_ne_zero 0)]
      have e3 : i + 1 + 0 - 1 = i := by omega
      have e4 : i + 1 + 0 = i + 1 := by omega
      rw [e3, e4]
      push_cast
      rfl
    · rw [if_neg hk, if_neg (Nat.succ_ne_zero k)]

/-! Validation lemmas. -/

theorem validate_fails_of_unknown (td : EcsTaskDefinition) (opts : List String)
    (h : ∃ n ∈ opts, ¬n ∈ td.container_names) :
    ∃ msg, td.validate_container_options opts = some (.unknownContainer msg) := by
  rcases h with ⟨n, hn, hnames⟩
  cases hfind : opts.find? (fun x => !(td.container_names.contains x)) with
  | none =>
    exfalso
    have hall := List.find?_eq_none.mp hfind n hn
    simp at hall
    exact hnames hall
  | some x =>
    refine ⟨"Unknown container: " ++ x, ?_⟩
    unfold EcsTaskDefinition.validate_container_options
    rw [hfind]

theorem validate_ok_of_known (td : EcsTaskDefinition) (opts : List String)
    (h : ∀ n ∈ opts, n ∈ td.container_names) :
    td.validate_container_options opts = none := by
  unfold EcsTaskDefinition.validate_container_options
  have hfind : opts.find? (fun x => !(td.container_names.contains x)) = none := by
    rw [List.find?_eq_none]
    intro x hx
    simp
    exact h x hx
  rw [hfind]

/-- C1: a mutation call naming at least one container absent from the definition
returns UnknownContainerError before producing any new state: the definition
after the call is the untouched receiver, so no container is modified and no
diff record is appended by that call. -/
theorem C1_unknown_container_rejected (td : EcsTaskDefinition) (tag : String)
    (images commands : List (String × String))
    (environment_list : List (String × String × String)) :
    ((∃ p ∈ images, ¬p.1 ∈ td.container_names) →
      (∃ msg, td.set_images tag images = .error (.unknownContainer msg)) ∧
        after_call td (td.set_images tag images) = td) ∧
    ((∃ p ∈ commands, ¬p.1 ∈ td.container_names) →
      (∃ msg, td.set_commands commands = .error (.unknownContainer msg)) ∧
        after_call td (td.set_commands commands) = td) ∧
    ((∃ t ∈ environment_list, ¬t.1 ∈ td.container_names) →
      (∃ msg, td.set_environment environment_list = .error (.unknownContainer msg)) ∧
        after_call td (td.set_environment environment_list) = td) := by
  refine ⟨?_, ?_, ?_⟩
  · rintro ⟨p, hp, hnames⟩
    have hkey : p.1 ∈ dictKeys images := List.mem_map.mpr ⟨p, hp, rfl⟩
    rcases validate_fails_of_unknown td (dictKeys images) ⟨p.1, hkey, hnames⟩ with ⟨msg, hval⟩
    constructor
    · exact ⟨msg, by simp [EcsTaskDefinition.set_images, hval]⟩
    · simp [after_call, EcsTaskDefinition.set_images, hval]
  · rintro ⟨p, hp, hnames⟩
    have hkey : p.1 ∈ dictKeys commands := List.mem_map.mpr ⟨p, hp, rfl⟩
    rcases validate_fails_of_unknown td (dictKeys commands) ⟨p.1, hkey, hnames⟩ with ⟨msg, hval⟩
    constructor
    · exact ⟨msg, by simp [EcsTaskDefinition.set_commands, hval]⟩
    · simp [after_call, EcsTaskDefinition.set_commands, hval]
  · rintro ⟨t, ht, hnames⟩
    have hkey : t.1 ∈ dictKeys (group_environment environment_list) :=
      (mem_dictKeys_group_environment environment_list t.1).mpr
        (List.mem_map.mpr ⟨t, ht, rfl⟩)
    rcases validate_fails_of_unknown td (dictKeys (group_environment environment_list))
      ⟨t.1, hkey, hnames⟩ with ⟨msg, hval⟩
    constructor
    · exact ⟨msg, by simp [EcsTaskDefinition.set_environment, hval]⟩
    · simp [after_call, EcsTaskDefinition.set_environment, hval]

theorem C1_witness :
    ((∃ msg, tdW.set_images "" [("nope", "img")] = .error (.unknownContainer msg)) ∧
      after_call tdW (tdW.set_images "" [("nope", "img")]) = tdW) ∧
    ((∃ msg, tdW.set_commands [("nope", "cmd")] = .error (.unknownContainer msg)) ∧
      after_call tdW (tdW.set_commands [("nope", "cmd")]) = tdW) ∧
    ((∃ msg, tdW.set_environment [("nope", "K", "V")] = .error (.unknownContainer msg)) ∧
      after_call tdW (tdW.set_environment [("nope", "K", "V")]) = tdW) := by
  have h := C1_unknown_container_rejected tdW "" [("nope", "img")] [("nope", "cmd")]
    [("nope", "K", "V")]
  exact ⟨h.1 ⟨("nope", "img"), by decide, by decide⟩,
    h.2.1 ⟨("nope", "cmd"), by decide, by decide⟩,
    h.2.2 ⟨("nope", "K", "V"), by decide, by decide⟩⟩

/-- C4: on a definition whose accumulated diff list is exactly
[(c1, command, run.sh), (c1, environment, X to 1)], get_overrides returns the
single override record for c1 whose command is the tokenized list and whose
environment is the name/value pair list of the merged mapping. -/
theorem C4_get_overrides_example :
    tdC4.get_overrides =
      [{ name := some "c1", command := some ["run.sh"],
         environment := some [("X", "1")] }] := by
  decide

/-- C5 counterexample: there is no run_task response for which RunAction.run
returns False; the returned boolean is the literal True for every input. -/
theorem C5_counterexample : ¬∃ r : RunTaskResult, (RunAction_run r).2 = false := by
  rintro ⟨r, h⟩
  simp [RunAction_run] at h

/-- C5 amended: run records the started task identifiers from the response and
returns the boolean True for every response, including a partial or empty
placement; failure is never signalled through the return value. -/
theorem C5_run_returns_true (r : RunTaskResult) :
    RunAction_run r = ({ started_tasks := r.tasks }, true) := rfl

/-- C6: with more than one deployment in the service payload, is_deployed is
false for every desired count and every answer of the remote task calls; the
quantification over the two call oracles shows the task lists are never
consulted. -/
theorem C6_multiple_deployments_not_deployed (service : EcsService)
    (list_tasks : Unit → List String)
    (describe_tasks : List String → List EcsTaskDetail)
    (h : 1 < service.deployments.length) :
    is_deployed list_tasks describe_tasks service = false := by
  unfold is_deployed
  rw [if_pos (by omega : service.deployments.length ≠ 1)]

theorem C6_witness :
    is_deployed (fun _ => ["t1", "t2"]) (fun _ => [⟨"arn:td", "RUNNING"⟩, ⟨"arn:td", "RUNNING"⟩])
      svcC6 = false :=
  C6_multiple_deployments_not_deployed svcC6 (fun _ => ["t1", "t2"])
    (fun _ => [⟨"arn:td", "RUNNING"⟩, ⟨"arn:td", "RUNNING"⟩]) (by decide)

/-- C9: with a timeout at most zero the loop body never runs, so no service
state is fetched and the failure path crashes referencing the never-assigned
service variable instead of reporting a timeout failure. -/
theorem C9_nonpositive_timeout_unbound (fetch : Nat → EcsService)
    (is_dep : EcsService → Bool) (timeout : Int) (h : timeout ≤ 0) :
    wait_for_finish fetch is_dep timeout = .unboundLocal := by
  unfold wait_for_finish
  rw [Int.toNat_eq_zero.mpr h]
  rfl

theorem C9_witness :
    wait_for_finish (fun _ => svcQuiet) (fun _ => false) 0 = .unboundLocal :=
  C9_nonpositive_timeout_unbound (fun _ => svcQuiet) (fun _ => false) 0 (le_refl 0)

/-- C8: every mutation only ever appends to the diff list, in both the
successful and the erroring outcome (an erroring call leaves the receiver as it
was), and a freshly constructed definition has an empty diff list.
get_overrides only reads the list: in the source it iterates self.diff without
assignment, and in this embedding it is a function of the definition. -/
theorem C8_diff_append_only (td : EcsTaskDefinition) (tag role_arn : String)
    (images commands : List (String × String))
    (environment_list : List (String × String × String))
    (family : String) (revision : Nat) (arn : String)
    (containers : List ContainerDefinition) (volumes : List String) :
    (∃ new, (after_call td (td.set_images tag images)).diff = td.diff ++ new) ∧
    (∃ new, (after_call td (td.set_commands commands)).diff = td.diff ++ new) ∧
    (∃ new, (after_call td (td.set_environment environment_list)).diff = td.diff ++ new) ∧
    (∃ new, (td.set_role_arn role_arn).diff = td.diff ++ new) ∧
    (EcsTaskDefinition.fromPayload family revision arn containers volumes).diff = [] := by
  refine ⟨?_, ?_, ?_, ?_, rfl⟩
  · cases hval : td.validate_container_options (dictKeys images) with
    | some e => exact ⟨[], by simp [EcsTaskDefinition.set_images, hval, after_call]⟩
    | none =>
      exact ⟨((td.containerDefinitions.map (set_images_container tag images)).map
          (fun r => r.2)).flatten,
        by simp [EcsTaskDefinition.set_images, hval, after_call]⟩
  · cases hval : td.validate_container_options (dictKeys commands) with
    | some e => exact ⟨[], by simp [EcsTaskDefinition.set_commands, hval, after_call]⟩
    | none =>
      exact ⟨((td.containerDefinitions.map (set_commands_container commands)).map
          (fun r => r.2)).flatten,
        by simp [EcsTaskDefinition.set_commands, hval, after_call]⟩
  · cases hval : td.validate_container_options (dictKeys (group_environment environment_list)) with
    | some e => exact ⟨[], by simp [EcsTaskDefinition.set_environment, hval, after_call]⟩
    | none =>
      refine ⟨((td.containerDefinitions.map
        (env_apply_fun (group_environment environment_list))).map (fun r => r.2)).flatten, ?_⟩
      simp [EcsTaskDefinition.set_environment, hval, after_call]
  · by_cases h : role_arn ≠ ""
    · exact ⟨[⟨none, "role_arn", .str role_arn, .str td.taskRoleArn⟩],
        by simp [EcsTaskDefinition.set_role_arn, h]⟩
    · exact ⟨[], by simp [EcsTaskDefinition.set_role_arn, h]⟩

/-- C10 counterexample: three set_images calls (c1, then c2, then c1 again)
leave an image-only diff list naming two distinct containers, yet get_overrides
returns three override records, two of them for c1 — not one record per
distinct container in the diff list. -/
theorem C10_counterexample :
    (∀ d ∈ tdC10c.diff, d.field = "image") ∧
    tdC10c.get_overrides =
      [{ name := some "c1" }, { name := some "c2" }, { name := some "c1" }] ∧
    ((tdC10c.diff.map (fun d => d.container)).dedup).length = 2 := by
  refine ⟨by decide, by decide, by decide⟩

theorem override_apply_image (o : ContainerOverride) (d : EcsTaskDefinitionDiff)
    (h : d.field = "image") : override_apply o d = o := by
  unfold override_apply
  rw [h, if_neg (by decide : ¬("image" : String) = "command"),
    if_neg (by decide : ¬("image" : String) = "environment")]

theorem spec_image_only_overrides_fields (l : List EcsTaskDefinitionDiff) :
    ∀ (cur : Option String), ∀ o ∈ spec_image_only_overrides cur l,
      o.command = none ∧ o.environment = none := by
  induction l with
  | nil =>
    intro cur o ho
    exact absurd ho (List.not_mem_nil o)
  | cons d rest ih =>
    intro cur o ho
    unfold spec_image_only_overrides at ho
    by_cases h : cur = d.container
    · rw [if_pos h] at ho
      exact ih cur o ho
    · rw [if_neg h] at ho
      rcases List.mem_cons.mp ho with rfl | ho2
      · exact ⟨rfl, rfl⟩
      · exact ih d.container o ho2

theorem spec_image_only_overrides_cons (cur : Option String)
    (d : EcsTaskDefinitionDiff) (rest : List EcsTaskDefinitionDiff) :
    spec_image_only_overrides cur (d :: rest) =
      if cur = d.container then spec_image_only_overrides cur rest
      else ⟨d.container, none, none⟩ :: spec_image_only_overrides d.container rest :=
  rfl

theorem get_overrides_go_cons (acc : List ContainerOverride) (ov : ContainerOverride)
    (appended : Bool) (d : EcsTaskDefinitionDiff) (rest : List EcsTaskDefinitionDiff) :
    get_overrides_go acc ov appended (d :: rest) =
      if ov.name ≠ d.container then
        get_overrides_go (acc ++ (if appended then [ov] else []))
          (override_apply ⟨d.container, none, none⟩ d) true rest
      else get_overrides_go acc (override_apply ov d) appended rest :=
  rfl

theorem get_overrides_image_aux (l : List EcsTaskDefinitionDiff) :
    ∀ (acc : List ContainerOverride) (pname : Option String) (appended : Bool),
      (∀ d ∈ l, d.field = "image") →
      get_overrides_go acc ⟨pname, none, none⟩ appended l =
        acc ++ (if appended then [⟨pname, none, none⟩] else []) ++
          spec_image_only_overrides pname l := by
  induction l with
  | nil =>
    intro acc pname appended _
    show acc ++ (if appended then [⟨pname, none, none⟩] else []) = _
    rw [show spec_image_only_overrides pname [] = [] from rfl, List.append_nil]
  | cons d rest ih =>
    intro acc pname appended himg
    have hd : d.field = "image" := himg d (List.mem_cons_self d rest)
    have hrest : ∀ x ∈ rest, x.field = "image" :=
      fun x hx => himg x (List.mem_cons_of_mem d hx)
    rw [get_overrides_go_cons, spec_image_only_overrides_cons]
    by_cases h : (pname : Option String) = d.container
    · rw [if_neg (by simp [h]), if_pos h,
        override_apply_image ⟨pname, none, none⟩ d hd, ih acc pname appended hrest]
    · rw [if_pos h, if_neg h,
        override_apply_image ⟨d.container, none, none⟩ d hd,
        ih _ d.container true hrest]
      simp [List.append_assoc]

/-- C10 amended: when every accumulated diff is an image diff, get_overrides
returns one record per maximal run of consecutive equal container names in the
diff list, each containing only that container name, with no command and no
environment entries (in particular image values never appear in the payload). -/
theorem C10_image_only_overrides (td : EcsTaskDefinition)
    (h : ∀ d ∈ td.diff, d.field = "image") :
    td.get_overrides = spec_image_only_overrides none td.diff ∧
      ∀ o ∈ td.get_overrides, o.command = none ∧ o.environment = none := by
  have hmain : td.get_overrides = spec_image_only_overrides none td.diff := by
    unfold EcsTaskDefinition.get_overrides
    rw [get_overrides_image_aux td.diff [] none false h]
    simp
  refine ⟨hmain, ?_⟩
  rw [hmain]
  exact spec_image_only_overrides_fields td.diff none

theorem C10_witness :
    tdC10c.get_overrides = spec_image_only_overrides none tdC10c.diff ∧
      ∀ o ∈ tdC10c.get_overrides, o.command = none ∧ o.environment = none :=
  C10_image_only_overrides tdC10c (by decide)

/-- C2 counterexample: the failure-marker event at instant 1 lies before the
PRIMARY deployment created at 5, yet at now = 20 both older_errors and errors
are empty, so the event does not appear in older_errors (nor anywhere else),
refuting that such events appear in older_errors. -/
theorem C2_counterexample :
    svcC2.events = [⟨1, "service was unable to place a task"⟩] ∧
    message_has_unable "service was unable to place a task" = true ∧
    (1 : Int) < svcC2.deployment_created_at 20 ∧
    svcC2.older_errors 20 = [] ∧ svcC2.errors 20 = [] := by
  exact ⟨rfl, by decide, by decide, by decide, by decide⟩

/-- C2 amended: errors holds exactly the timestamps of failure-marker events
strictly between deployment_updated_at and now; older_errors holds exactly those
strictly between deployment_created_at and deployment_updated_at; and, with
created not after updated, an event timestamp before deployment_created_at
belongs to neither collection. -/
theorem C2_error_windows (s : EcsService) (now ts : Int) :
    (ts ∈ dictKeys (s.errors now) ↔ ∃ e ∈ s.events, e.createdAt = ts ∧
      message_has_unable e.message ∧ s.deployment_updated_at now < e.createdAt ∧
      e.createdAt < now) ∧
    (ts ∈ dictKeys (s.older_errors now) ↔ ∃ e ∈ s.events, e.createdAt = ts ∧
      message_has_unable e.message ∧ s.deployment_created_at now < e.createdAt ∧
      e.createdAt < s.deployment_updated_at now) ∧
    (s.deployment_created_at now ≤ s.deployment_updated_at now →
      ts < s.deployment_created_at now →
      ¬ts ∈ dictKeys (s.errors now) ∧ ¬ts ∈ dictKeys (s.older_errors now)) := by
  have herr : ts ∈ dictKeys (s.errors now) ↔ ∃ e ∈ s.events, e.createdAt = ts ∧
      message_has_unable e.message ∧ s.deployment_updated_at now < e.createdAt ∧
      e.createdAt < now :=
    mem_dictKeys_get_warnings s (s.deployment_updated_at now) now ts
  have hold : ts ∈ dictKeys (s.older_errors now) ↔ ∃ e ∈ s.events, e.createdAt = ts ∧
      message_has_unable e.message ∧ s.deployment_created_at now < e.createdAt ∧
      e.createdAt < s.deployment_updated_at now :=
    mem_dictKeys_get_warnings s (s.deployment_created_at now)
      (s.deployment_updated_at now) ts
  refine ⟨herr, hold, ?_⟩
  intro hcu hts
  constructor
  · intro hc
    rcases herr.mp hc with ⟨e, _, hets, _, hlt, _⟩
    rw [hets] at hlt
    omega
  · intro hc
    rcases hold.mp hc with ⟨e, _, hets, _, hlt, _⟩
    rw [hets] at hlt
    omega

theorem C2_witness :
    ¬(1 : Int) ∈ dictKeys (svcC2.errors 20) ∧
      ¬(1 : Int) ∈ dictKeys (svcC2.older_errors 20) :=
  (C2_error_windows svcC2 20 1).2.2 (by decide) (by decide)

/-- C3: the poller stops at the first fetched snapshot whose errors set is
non-empty and reports a non-timeout failure with that snapshot's current and
older error events, before the deadline; and when no snapshot ever shows
errors (pure non-convergence), the only failure is the timeout-flavoured one
at the deadline. -/
theorem C3_fail_fast (fetch : Nat → EcsService) (is_dep : EcsService → Bool)
    (timeout : Int) :
    (∀ i : Nat, (i : Int) < timeout →
      (∀ j, j < i → is_dep (fetch j) = false ∧ (fetch j).errors ((j : Int) + 1) = []) →
      (fetch i).errors ((i : Int) + 1) ≠ [] →
      wait_for_finish fetch is_dep timeout =
        .failure false ((fetch i).errors ((i : Int) + 1))
          ((fetch i).older_errors ((i : Int) + 1))) ∧
    ((∀ j : Nat, is_dep (fetch j) = false ∧ (fetch j).errors ((j : Int) + 1) = []) →
      0 < timeout →
      ∃ e o, wait_for_finish fetch is_dep timeout = .failure true e o) := by
  constructor
  · intro i hi hprev herr
    have hi2 : i < timeout.toNat := by omega
    have hsplit : timeout.toNat = i + ((timeout.toNat - i - 1) + 1) := by omega
    unfold wait_for_finish
    rw [hsplit, poll_loop_advance fetch is_dep i ((timeout.toNat - i - 1) + 1) 0 none
      (fun j hj => by
        have hp := hprev j hj
        constructor
        · rw [Nat.zero_add]
          exact hp.1
        · rw [Nat.zero_add]
          exact hp.2), Nat.zero_add]
    rw [poll_loop]
    simp only [if_true]
    have hEmpty : ((fetch i).errors ((i : Int) + 1)).isEmpty = false := by
      cases herrs : (fetch i).errors ((i : Int) + 1) with
      | nil => exact absurd herrs herr
      | cons a l => rfl
    rw [hEmpty, Bool.and_false, poll_loop_not_waiting]
    show (if !((fetch i).errors ((i : Int) + 1)).isEmpty then _ else _) = _
    rw [hEmpty]
    rfl
  · intro hkeep hpos
    have h0 : ¬timeout.toNat = 0 := by omega
    unfold wait_for_finish
    have hadv := poll_loop_advance fetch is_dep timeout.toNat 0 0 none
      (fun j hj => by
        have hp := hkeep j
        constructor
        · rw [Nat.zero_add]
          exact hp.1
        · rw [Nat.zero_add]
          exact hp.2)
    rw [Nat.add_zero] at hadv
    rw [if_neg h0] at hadv
    rw [hadv]
    exact ⟨_, _, rfl⟩

theorem C3_witness :
    wait_for_finish fetchC3 (fun _ => false) 300 =
      .failure false (svcErr.errors 2) (svcErr.older_errors 2) := by
  have h := (C3_fail_fast fetchC3 (fun _ => false) 300).1 1 (by decide)
    (fun j hj => by
      have hj0 : j = 0 := by omega
      subst hj0
      exact ⟨rfl, by decide⟩)
    (by decide)
  simpa using h

/-! Lemmas for set_environment idempotence. -/

theorem dictUpdate_dictOfList_idem (envOld newEnv : List (String × String))
    (hn : (dictKeys newEnv).Nodup) :
    dictUpdate (dictOfList (dictUpdate (dictOfList envOld) newEnv)) newEnv =
      dictUpdate (dictOfList envOld) newEnv := by
  have hkeys : (dictKeys (dictUpdate (dictOfList envOld) newEnv)).Nodup :=
    nodup_dictKeys_dictUpdate newEnv (nodup_dictKeys_dictOfList envOld)
  rw [dictOfList_self _ hkeys]
  exact dictUpdate_idem newEnv hn (dictOfList envOld)

theorem apply_container_environment_fst (c : ContainerDefinition)
    (newEnv : List (String × String)) :
    (apply_container_environment c newEnv).1 =
      { c with environment := dictUpdate (dictOfList c.environment) newEnv } :=
  rfl

theorem env_apply_fun_name (environment : List (String × List (String × String)))
    (c : ContainerDefinition) : ((env_apply_fun environment c).1).name = c.name := by
  unfold env_apply_fun
  cases environment.find? (fun p => p.1 = c.name) with
  | none => rfl
  | some p => rfl

theorem env_apply_fun_env_idem (environment : List (String × List (String × String)))
    (hnd : ∀ p ∈ environment, (dictKeys p.2).Nodup) (c : ContainerDefinition) :
    ((env_apply_fun environment (env_apply_fun environment c).1).1).environment =
      ((env_apply_fun environment c).1).environment := by
  cases hfind : environment.find? (fun p => p.1 = c.name) with
  | none =>
    have hc : (env_apply_fun environment c).1 = c := by
      unfold env_apply_fun
      rw [hfind]
    rw [hc, hc]
  | some p =>
    have hp : p ∈ environment := List.mem_of_find?_eq_some hfind
    have hnp : (dictKeys p.2).Nodup := hnd p hp
    have hc1 : (env_apply_fun environment c).1 =
        { c with environment := dictUpdate (dictOfList c.environment) p.2 } := by
      unfold env_apply_fun
      rw [hfind]
      rfl
    rw [hc1]
    have hname : ({ c with environment := dictUpdate (dictOfList c.environment) p.2 } :
        ContainerDefinition).name = c.name := rfl
    have hfind2 : environment.find? (fun q => q.1 =
        ({ c with environment := dictUpdate (dictOfList c.environment) p.2 } :
          ContainerDefinition).name) = some p := by
      rw [hname, hfind]
    have hc2 : (env_apply_fun environment
        ({ c with environment := dictUpdate (dictOfList c.environment) p.2 } :
          ContainerDefinition)).1 =
        { c with environment := dictUpdate (dictOfList
            (dictUpdate (dictOfList c.environment) p.2)) p.2 } := by
      unfold env_apply_fun
      rw [hfind2]
      rfl
    rw [hc2]
    show dictUpdate (dictOfList (dictUpdate (dictOfList c.environment) p.2)) p.2 =
      dictUpdate (dictOfList c.environment) p.2
    exact dictUpdate_dictOfList_idem c.environment p.2 hnp

theorem validate_congr (td td' : EcsTaskDefinition)
    (h : td'.container_names = td.container_names) (opts : List String) :
    td'.validate_container_options opts = td.validate_container_options opts := by
  unfold EcsTaskDefinition.validate_container_options
  rw [h]

theorem set_environment_ok (td : EcsTaskDefinition)
    (environment_list : List (String × String × String))
    (hval : td.validate_container_options
      (dictKeys (group_environment environment_list)) = none) :
    td.set_environment environment_list = .ok { td with
      containerDefinitions := (td.containerDefinitions.map
        (env_apply_fun (group_environment environment_list))).map (fun r => r.1),
      diff := td.diff ++ ((td.containerDefinitions.map
        (env_apply_fun (group_environment environment_list))).map (fun r => r.2)).flatten } := by
  simp [EcsTaskDefinition.set_environment, hval]

theorem set_environment_ok_spec (td : EcsTaskDefinition)
    (environment_list : List (String × String × String))
    (hval : td.validate_container_options
      (dictKeys (group_environment environment_list)) = none) :
    ∃ td₁, td.set_environment environment_list = .ok td₁ ∧
      td₁.containerDefinitions = (td.containerDefinitions.map
        (env_apply_fun (group_environment environment_list))).map (fun r => r.1) :=
  ⟨_, set_environment_ok td environment_list hval, rfl⟩

/-- C7: applying set_environment twice with the same triples, all of whose
container names exist in the definition, leaves every container environment
equal to what the single application produced. -/
theorem C7_set_environment_idempotent (td : EcsTaskDefinition)
    (environment_list : List (String × String × String))
    (h : ∀ t ∈ environment_list, t.1 ∈ td.container_names) :
    ∃ td₁ td₂, td.set_environment environment_list = .ok td₁ ∧
      td₁.set_environment environment_list = .ok td₂ ∧
      td₂.containerDefinitions.map (fun c => c.environment) =
        td₁.containerDefinitions.map (fun c => c.environment) := by
  have hknown : ∀ n ∈ dictKeys (group_environment environment_list),
      n ∈ td.container_names := by
    intro n hn
    rcases List.mem_map.mp
      ((mem_dictKeys_group_environment environment_list n).mp hn) with ⟨t, ht, hte⟩
    rw [← hte]
    exact h t ht
  have hval : td.validate_container_options
      (dictKeys (group_environment environment_list)) = none :=
    validate_ok_of_known td _ hknown
  obtain ⟨td₁, h1, hc1⟩ := set_environment_ok_spec td environment_list hval
  have hnames : td₁.container_names = td.container_names := by
    show td₁.containerDefinitions.map (fun c => c.name) =
      td.containerDefinitions.map (fun c => c.name)
    rw [hc1, List.map_map, List.map_map]
    apply list_map_eq_map
    intro c _
    exact env_apply_fun_name (group_environment environment_list) c
  have hval2 : td₁.validate_container_options
      (dictKeys (group_environment environment_list)) = none := by
    rw [validate_congr td td₁ hnames]
    exact hval
  obtain ⟨td₂, h2, hc2⟩ := set_environment_ok_spec td₁ environment_list hval2
  refine ⟨td₁, td₂, h1, h2, ?_⟩
  rw [hc2, hc1]
  simp only [List.map_map]
  apply list_map_eq_map
  intro c _
  exact env_apply_fun_env_idem (group_environment environment_list)
    (group_environment_value_nodup environment_list) c

theorem C7_witness :
    ∃ td₁ td₂, tdW.set_environment [("app", "B", "9"), ("app", "C", "3")] = .ok td₁ ∧
      td₁.set_environment [("app", "B", "9"), ("app", "C", "3")] = .ok td₂ ∧
      td₂.containerDefinitions.map (fun c => c.environment) =
        td₁.containerDefinitions.map (fun c => c.environment) :=
  C7_set_environment_idempotent tdW [("app", "B", "9"), ("app", "C", "3")] (by decide)

end EcsDeploy
